import Mathlib

/-!
Verification of the redirect-url-extension core (rule matching and URL
rewriting), shallowly embedded from `src/background/background.ts` and the
`StorageManager` in `src/popup/Popup.tsx`.

The JavaScript host primitives (`RegExp` with the "i" flag and `.test`,
WHATWG `URL` / `URLSearchParams`) are modelled by executable Lean functions
over `List Char` covering the fragment the extension exercises:
a Brzozowski-derivative regex engine with case-insensitive comparison and
search-anywhere (`.test`) semantics, and an http/https URL record with
form-urlencoded query serialization.
-/

/-! ## Data model (`src/types`) -/

/-- A redirect rule. The source field `prefix` is renamed `pfx`
(`prefix` is a Lean keyword). -/
structure RedirectRule where
  id : String
  name : String
  pattern : String
  pfx : String
  isEnabled : Bool
  isRegex : Bool
  createdAt : Nat
  updatedAt : Nat
deriving DecidableEq, Inhabited

structure RedirectLog where
  id : String
  originalUrl : String
  redirectedUrl : String
  ruleId : String
  ruleName : String
  timestamp : Nat
  tabId : Nat
deriving DecidableEq

structure ExtensionSettings where
  isEnabled : Bool
  rules : List RedirectRule
  showNotifications : Bool
  logRedirects : Bool
deriving DecidableEq

/-! ## Regex engine: model of JavaScript `new RegExp(pat, "i")` / `.test`

The abstract syntax covers the fragment the extension can produce:
literal characters, `.`, character classes, concatenation, alternation,
`*` `+` `?` quantifiers and groups.  Matching is case-insensitive
(the "i" flag): literal characters compare via `Char.toLower`. -/

inductive Regex where
  | fail : Regex
  | eps : Regex
  | chr : Char → Regex
  | any : Regex
  | cls : Bool → List (Char × Char) → Regex
  | cat : Regex → Regex → Regex
  | alt : Regex → Regex → Regex
  | star : Regex → Regex
deriving DecidableEq

/-- Does a character fall in one of the class ranges (as written)? -/
def clsItemsMatch (items : List (Char × Char)) (c : Char) : Bool :=
  items.any (fun p => decide (p.1.toNat ≤ c.toNat) && decide (c.toNat ≤ p.2.toNat))

/-- Case-insensitive class membership, with negation flag. -/
def clsMatchB (neg : Bool) (items : List (Char × Char)) (c : Char) : Bool :=
  let hit := clsItemsMatch items c || clsItemsMatch items c.toLower ||
    clsItemsMatch items c.toUpper
  if neg then !hit else hit

/-- Does the regex accept the empty string? -/
def nullable : Regex → Bool
  | .fail => false
  | .eps => true
  | .chr _ => false
  | .any => false
  | .cls _ _ => false
  | .cat a b => nullable a && nullable b
  | .alt a b => nullable a || nullable b
  | .star _ => true

/-- Brzozowski derivative with case-insensitive character comparison. -/
def derivR : Regex → Char → Regex
  | .fail, _ => .fail
  | .eps, _ => .fail
  | .chr a, c => if a.toLower = c.toLower then .eps else .fail
  | .any, _ => .eps
  | .cls neg items, c => if clsMatchB neg items c then .eps else .fail
  | .cat a b, c =>
    if nullable a then .alt (.cat (derivR a c) b) (derivR b c)
    else .cat (derivR a c) b
  | .alt a b, c => .alt (derivR a c) (derivR b c)
  | .star a, c => .cat (derivR a c) (.star a)

/-- Does some prefix of the input match the regex? -/
def matchPre : Regex → List Char → Bool
  | r, [] => nullable r
  | r, c :: cs => nullable r || matchPre (derivR r c) cs

/-- Does the regex match anywhere in the input?  This is JavaScript
`RegExp.prototype.test` (search-anywhere, not full-string anchoring). -/
def searchB : Regex → List Char → Bool
  | r, [] => nullable r
  | r, c :: cs => matchPre r (c :: cs) || searchB r cs

/-- `regex.test(url)` of the source. -/
def Regex.test (r : Regex) (s : String) : Bool :=
  searchB r s.data

/-- Language semantics of the regex fragment (case-insensitive literals). -/
inductive RMatch : Regex → List Char → Prop
  | eps : RMatch .eps []
  | chr (a c : Char) : a.toLower = c.toLower → RMatch (.chr a) [c]
  | any (c : Char) : RMatch .any [c]
  | cls (neg : Bool) (items : List (Char × Char)) (c : Char) :
      clsMatchB neg items c = true → RMatch (.cls neg items) [c]
  | cat {a b : Regex} {s t : List Char} :
      RMatch a s → RMatch b t → RMatch (.cat a b) (s ++ t)
  | altL {a : Regex} (b : Regex) {s : List Char} :
      RMatch a s → RMatch (.alt a b) s
  | altR (a : Regex) {b : Regex} {s : List Char} :
      RMatch b s → RMatch (.alt a b) s
  | starNil (a : Regex) : RMatch (.star a) []
  | starCons {a : Regex} {c : Char} {s t : List Char} :
      RMatch a (c :: s) → RMatch (.star a) t → RMatch (.star a) (c :: s ++ t)

/-! ## Regex parser: model of `new RegExp(pat)` syntax acceptance

`compileRegex pat = none` models a `SyntaxError` thrown by the `RegExp`
constructor (the `catch` path of `findMatchingRule`).  The grammar covers
literals, `\\`-escapes (incl. `\d` `\w` `\s` and negations), `.`,
character classes, `*` `+` `?` (with lazy `?` suffix), `|`, and `(...)` /
`(?:...)` groups.  Anchors and counted repetition are outside the model. -/

/-- Ranges of the `\d` class. -/
def digitItems : List (Char × Char) := [('0', '9')]

/-- Ranges of the `\w` class. -/
def wordItems : List (Char × Char) :=
  [('a', 'z'), ('A', 'Z'), ('0', '9'), ('_', '_')]

/-- Ranges of the `\s` class (common whitespace). -/
def spaceItems : List (Char × Char) :=
  [(' ', ' '), ('\t', '\t'), ('\n', '\n'), ('\x0b', '\x0c'), ('\r', '\r')]

/-- Meaning of an escape `\c` outside a character class. -/
def escRegex (c : Char) : Regex :=
  if c = 'd' then .cls false digitItems
  else if c = 'D' then .cls true digitItems
  else if c = 'w' then .cls false wordItems
  else if c = 'W' then .cls true wordItems
  else if c = 's' then .cls false spaceItems
  else if c = 'S' then .cls true spaceItems
  else .chr c

/-- Ranges contributed by an escape `\c` inside a character class. -/
def escClsItems (c : Char) : List (Char × Char) :=
  if c = 'd' then digitItems
  else if c = 'w' then wordItems
  else if c = 's' then spaceItems
  else [(c, c)]

/-- Parse the body of a character class, after `[` (and an optional `^`),
up to the closing `]`.  Returns the ranges and the remaining input. -/
def parseClassItems : Nat → List Char → List (Char × Char) →
    Option (List (Char × Char) × List Char)
  | 0, _, _ => none
  | _ + 1, [], _ => none
  | fuel + 1, c :: rest, acc =>
    if c = ']' then some (acc.reverse, rest)
    else
      let first : Option (Option Char × List Char) :=
        if c = '\\' then
          match rest with
          | [] => none
          | d :: rest2 =>
            if d = 'd' || d = 'w' || d = 's' then
              some (none, d :: rest2)
            else some (some d, rest2)
        else some (some c, rest)
      match first with
      | none => none
      | some (none, d :: rest2) =>
        -- class escape contributes its ranges; no range syntax after it
        parseClassItems fuel rest2 ((escClsItems d).reverse ++ acc)
      | some (none, []) => none
      | some (some c1, rest2) =>
        match rest2 with
        | '-' :: d :: rest3 =>
          if d = ']' then
            -- trailing '-' is a literal; ']' closes on the next round
            parseClassItems fuel ('-' :: d :: rest3) ((c1, c1) :: acc)
          else if d = '\\' then
            match rest3 with
            | e :: rest4 => parseClassItems fuel rest4 ((c1, e) :: acc)
            | [] => none
          else parseClassItems fuel rest3 ((c1, d) :: acc)
        | _ => parseClassItems fuel rest2 ((c1, c1) :: acc)

/-- Drop a lazy-quantifier marker `?` after `*` `+` `?`. -/
def lazyStrip : List Char → List Char
  | '?' :: t => t
  | s => s

mutual

/-- Alternation level: `seq ('|' alt)?`. -/
def parseAltR : Nat → List Char → Option (Regex × List Char)
  | 0, _ => none
  | fuel + 1, s =>
    match parseSeqR fuel s with
    | none => none
    | some (r, rest) =>
      match rest with
      | '|' :: rest2 =>
        match parseAltR fuel rest2 with
        | none => none
        | some (r2, rest3) => some (.alt r r2, rest3)
      | _ => some (r, rest)

/-- Concatenation level: a run of quantified atoms, ending at `)`,
`|` or the end of the input. -/
def parseSeqR : Nat → List Char → Option (Regex × List Char)
  | 0, _ => none
  | fuel + 1, s =>
    match s with
    | [] => some (.eps, [])
    | ')' :: _ => some (.eps, s)
    | '|' :: _ => some (.eps, s)
    | _ =>
      match parsePostR fuel s with
      | none => none
      | some (r, rest) =>
        match parseSeqR fuel rest with
        | none => none
        | some (r2, rest2) => some (.cat r r2, rest2)

/-- One atom with an optional `*`, `+` or `?` quantifier. -/
def parsePostR : Nat → List Char → Option (Regex × List Char)
  | 0, _ => none
  | fuel + 1, s =>
    match parseAtomR fuel s with
    | none => none
    | some (r, rest) =>
      match rest with
      | '*' :: rest2 => some (.star r, lazyStrip rest2)
      | '+' :: rest2 => some (.cat r (.star r), lazyStrip rest2)
      | '?' :: rest2 => some (.alt r .eps, lazyStrip rest2)
      | _ => some (r, rest)

/-- One atom: literal, escape, `.`, class, or group.  A quantifier with
no atom before it, an unbalanced bracket, a dangling `\\` and an anchor
are syntax errors. -/
def parseAtomR : Nat → List Char → Option (Regex × List Char)
  | 0, _ => none
  | fuel + 1, s =>
    match s with
    | [] => none
    | '(' :: rest =>
      let rest2 := match rest with
        | '?' :: ':' :: t => t
        | _ => rest
      match parseAltR fuel rest2 with
      | some (r, ')' :: rest3) => some (r, rest3)
      | _ => none
    | ')' :: _ => none
    | '|' :: _ => none
    | '*' :: _ => none
    | '+' :: _ => none
    | '?' :: _ => none
    | '^' :: _ => none
    | '$' :: _ => none
    | '.' :: rest => some (.any, rest)
    | '[' :: '^' :: rest =>
      match parseClassItems fuel rest [] with
      | some (items, rest2) => some (.cls true items, rest2)
      | none => none
    | '[' :: rest =>
      match parseClassItems fuel rest [] with
      | some (items, rest2) => some (.cls false items, rest2)
      | none => none
    | '\\' :: [] => none
    | '\\' :: d :: rest => some (escRegex d, rest)
    | c :: rest => some (.chr c, rest)

end

/-- `new RegExp(pat, "i")`: `some` a compiled regex, or `none` on a
syntax error. -/
def compileRegex (pat : String) : Option Regex :=
  match parseAltR (4 * pat.length + 16) pat.data with
  | some (r, []) => some r
  | _ => none

/-! ## Rule matching (`BackgroundService.findMatchingRule`) -/

/-- One pass of JavaScript `str.replace(/t/g, rep)` for a single-character
target: every occurrence of `t` is replaced by `rep`, left to right, and
replacement text is not rescanned. -/
def replaceAllChar (t : Char) (rep : List Char) : List Char → List Char
  | [] => []
  | c :: cs =>
    if c = t then rep ++ replaceAllChar t rep cs
    else c :: replaceAllChar t rep cs

/-- The wildcard-to-regex translation of `findMatchingRule`:
`pattern.replace(/\./g, "\\.").replace(/\*/g, ".*").replace(/\?/g, ".")`. -/
def wildcardTranslate (p : String) : String :=
  ⟨replaceAllChar '?' ['.']
    (replaceAllChar '*' ['.', '*']
      (replaceAllChar '.' ['\\', '.'] p.data))⟩

/-- Per-character reading of the wildcard translation: `.` is escaped,
`*` becomes match-any-sequence, `?` becomes match-one-character.
(The spec's description of the translation; proved equal to the three
sequential replacement passes of the source.) -/
def wildcardCharMap (c : Char) : List Char :=
  if c = '.' then ['\\', '.']
  else if c = '*' then ['.', '*']
  else if c = '?' then ['.']
  else [c]

/-- The body of the per-rule `try` block of `findMatchingRule`: does this
rule's pattern match the url?  A pattern that fails to compile (the
`catch` path) counts as non-matching. -/
def ruleMatches (url : String) (rule : RedirectRule) : Bool :=
  if rule.isRegex then
    match compileRegex rule.pattern with
    | some regex => regex.test url
    | none => false
  else
    match compileRegex (wildcardTranslate rule.pattern) with
    | some regex => regex.test url
    | none => false

/-- `BackgroundService.findMatchingRule`: scan the rules in order, skip
disabled ones, return the first whose pattern matches; `none` if no rule
matches. -/
def findMatchingRule (url : String) : List RedirectRule → Option RedirectRule
  | [] => none
  | rule :: rules =>
    if rule.isEnabled then
      if ruleMatches url rule then some rule
      else findMatchingRule url rules
    else findMatchingRule url rules

/-! ## URL model: the WHATWG `URL` / `URLSearchParams` fragment used by
`buildRedirectUrl`

A parsed URL record.  `scheme` is lowercase without the colon
(`url.protocol` is `scheme ++ ":"`); `slashes` records an authority part;
`search` is `""` or starts with `?`; `hash` is `""` or starts with `#`.
`host` keeps any port; userinfo is dropped; percent-encoding of path
characters is not modelled (inputs are kept verbatim). -/

structure URLRec where
  scheme : String
  slashes : Bool
  host : String
  pathname : String
  search : String
  hash : String
deriving DecidableEq

/-- Schemes the WHATWG parser treats as special (minus `file`). -/
def specialScheme (s : String) : Bool :=
  s = "http" || s = "https" || s = "ws" || s = "wss" || s = "ftp"

/-- Split a character list at the first stop character: returns the part
before it and the rest (starting with the stop, if any). -/
def splitUntil (stops : List Char) : List Char → List Char × List Char
  | [] => ([], [])
  | c :: cs =>
    if c ∈ stops then ([], c :: cs)
    else
      let p := splitUntil stops cs
      (c :: p.1, p.2)

def isSchemeChar (c : Char) : Bool :=
  c.isAlpha || c.isDigit || c = '+' || c = '-' || c = '.'

def parseSchemeAux : List Char → List Char → Option (List Char × List Char)
  | [], _ => none
  | c :: cs, acc =>
    if c = ':' then some (acc.reverse, cs)
    else if isSchemeChar c then parseSchemeAux cs (c :: acc)
    else none

/-- Leading `scheme:` of a URL string: a letter, then scheme characters,
then a colon. -/
def parseSchemeChars (l : List Char) : Option (List Char × List Char) :=
  match l with
  | c :: _ => if c.isAlpha then parseSchemeAux l [] else none
  | [] => none

/-- Drop any userinfo from an authority (keep the part after the last `@`). -/
def afterLastAt (l : List Char) : List Char :=
  (List.splitOn '@' l).getLastD l

/-- Query and fragment components from the remainder of the input.
An empty query or fragment serializes to the empty component, as in the
`URL` getters. -/
def mkURLTail (scheme : String) (slashes : Bool) (host pathname : String)
    (rest : List Char) : URLRec :=
  let sp :=
    match rest with
    | '?' :: t =>
      let p := splitUntil ['#'] t
      (if p.1.isEmpty then "" else "?" ++ (⟨p.1⟩ : String), p.2)
    | _ => (("" : String), rest)
  let hash :=
    match sp.2 with
    | '#' :: t => if t.isEmpty then "" else "#" ++ (⟨t⟩ : String)
    | _ => ""
  ⟨scheme, slashes, host, pathname, sp.1, hash⟩

/-- `new URL(s)`: `some` a URL record, `none` models a thrown `TypeError`.
Special schemes require `//` and a nonempty host; other schemes take an
opaque path, with an optional `//authority`. -/
def parseURL (s : String) : Option URLRec :=
  match parseSchemeChars s.data with
  | none => none
  | some (sch, rest) =>
    let scheme : String := ⟨sch.map Char.toLower⟩
    if specialScheme scheme then
      match rest with
      | '/' :: '/' :: rest2 =>
        let pa := splitUntil ['/', '?', '#'] rest2
        let hostport := afterLastAt pa.1
        if hostport.isEmpty || hostport.any (fun c => c = ' ') then none
        else
          let pp := splitUntil ['?', '#'] pa.2
          let pathname : String := if pp.1.isEmpty then "/" else ⟨pp.1⟩
          some (mkURLTail scheme true ⟨hostport.map Char.toLower⟩ pathname pp.2)
      | _ => none
    else
      match rest with
      | '/' :: '/' :: rest2 =>
        let pa := splitUntil ['/', '?', '#'] rest2
        let hostport := afterLastAt pa.1
        if hostport.any (fun c => c = ' ') then none
        else
          let pp := splitUntil ['?', '#'] pa.2
          some (mkURLTail scheme true ⟨hostport.map Char.toLower⟩ ⟨pp.1⟩ pp.2)
      | _ =>
        let pp := splitUntil ['?', '#'] rest
        some (mkURLTail scheme false "" ⟨pp.1⟩ pp.2)

/-- `url.protocol`. -/
def urlProtocol (u : URLRec) : String :=
  u.scheme ++ ":"

/-- `url.toString()`. -/
def serializeURL (u : URLRec) : String :=
  u.scheme ++ ":" ++ (if u.slashes then "//" else "") ++ u.host ++
    u.pathname ++ u.search ++ u.hash

/-! ### `URLSearchParams`: parse, set, serialize -/

def hexVal (c : Char) : Option Nat :=
  if '0' ≤ c ∧ c ≤ '9' then some (c.toNat - '0'.toNat)
  else if 'a' ≤ c ∧ c ≤ 'f' then some (c.toNat - 'a'.toNat + 10)
  else if 'A' ≤ c ∧ c ≤ 'F' then some (c.toNat - 'A'.toNat + 10)
  else none

/-- Percent-decoding of a query component (`+` is a space; a `%` not
followed by two hex digits is literal). -/
def percentDecode : List Char → List Char
  | [] => []
  | '%' :: a :: b :: rest =>
    match hexVal a, hexVal b with
    | some x, some y => Char.ofNat (16 * x + y) :: percentDecode rest
    | _, _ => '%' :: percentDecode (a :: b :: rest)
  | '+' :: rest => ' ' :: percentDecode rest
  | c :: rest => c :: percentDecode rest

/-- Split on a separator, keeping empty pieces. -/
def splitOnChar (t : Char) : List Char → List (List Char)
  | [] => [[]]
  | c :: cs =>
    let r := splitOnChar t cs
    if c = t then [] :: r
    else
      match r with
      | h :: tl => (c :: h) :: tl
      | [] => [[c]]

/-- Split one `key=value` piece at the first `=` (no `=`: empty value). -/
def splitAtEq (piece : List Char) : List Char × List Char :=
  let p := splitUntil ['='] piece
  match p.2 with
  | '=' :: v => (p.1, v)
  | _ => (p.1, [])

/-- The (name, value) pairs of a `search` component, in order. -/
def queryPairs (search : String) : List (String × String) :=
  let q := match search.data with
    | '?' :: t => t
    | t => t
  (splitOnChar '&' q).filterMap fun piece =>
    if piece.isEmpty then none
    else
      let kv := splitAtEq piece
      some (⟨percentDecode kv.1⟩, ⟨percentDecode kv.2⟩)

def hexDigit (n : Nat) : Char :=
  if n < 10 then Char.ofNat ('0'.toNat + n) else Char.ofNat ('A'.toNat + n - 10)

/-- UTF-8 bytes of a code point. -/
def utf8Bytes (n : Nat) : List Nat :=
  if n < 128 then [n]
  else if n < 2048 then [192 + n / 64, 128 + n % 64]
  else if n < 65536 then [224 + n / 4096, 128 + (n / 64) % 64, 128 + n % 64]
  else [240 + n / 262144, 128 + (n / 4096) % 64, 128 + (n / 64) % 64, 128 + n % 64]

/-- `application/x-www-form-urlencoded` character encoding. -/
def formEncodeChar (c : Char) : List Char :=
  if c.isAlphanum || c = '*' || c = '-' || c = '.' || c = '_' then [c]
  else if c = ' ' then ['+']
  else ((utf8Bytes c.toNat).map fun b => ['%', hexDigit (b / 16), hexDigit (b % 16)]).flatten

def formEncode (s : String) : String :=
  ⟨(s.data.map formEncodeChar).flatten⟩

/-- Serialize (name, value) pairs back to a query string (no leading `?`). -/
def serializeQuery (pairs : List (String × String)) : String :=
  String.intercalate "&" (pairs.map fun kv => formEncode kv.1 ++ "=" ++ formEncode kv.2)

/-- `searchParams.set(k, v)`: overwrite the first pair named `k` in place
and drop later duplicates, or append if `k` is absent. -/
def setParam : List (String × String) → String → String → List (String × String)
  | [], k, v => [(k, v)]
  | kv :: rest, k, v =>
    if kv.1 = k then (k, v) :: rest.filter (fun p => p.1 ≠ k)
    else kv :: setParam rest k v

/-- `prefixUrl.searchParams.set("url", value)` as a URL-record update:
the rebuilt query is never empty, so it serializes with a leading `?`. -/
def setUrlParam (u : URLRec) (value : String) : URLRec :=
  { u with search := "?" ++ serializeQuery (setParam (queryPairs u.search) "url" value) }

/-! ## URL construction (`BackgroundService.buildRedirectUrl`) -/

/-- Is `p` a leading sequence of the first list? -/
def startsWithL : List Char → List Char → Bool
  | _, [] => true
  | [], _ :: _ => false
  | c :: cs, p :: ps => c = p && startsWithL cs ps

/-- `s.startsWith(pre)` (character-list model of the `String` primitive). -/
def strStartsWith (s pre : String) : Bool :=
  startsWithL s.data pre.data

/-- `s.includes(c)` for a single character. -/
def strContains (s : String) (c : Char) : Bool :=
  s.data.any (fun x => x = c)

/-- `BackgroundService.buildRedirectUrl`.  The single `try` block first
parses `originalUrl`; any parse failure inside it lands in the `catch`,
which returns `originalUrl` unchanged. -/
def buildRedirectUrl (originalUrl : String) (rule : RedirectRule) : String :=
  match parseURL originalUrl with
  | none => originalUrl
  | some url =>
    if strStartsWith rule.pfx "http://" || strStartsWith rule.pfx "https://" then
      match parseURL rule.pfx with
      | none => originalUrl
      | some prefixUrl => serializeURL (setUrlParam prefixUrl originalUrl)
    else if strContains rule.pfx '/' then
      rule.pfx ++ originalUrl
    else
      urlProtocol url ++ "//" ++ rule.pfx ++ url.pathname ++ url.search ++ url.hash

/-! ## Navigation handling (`BackgroundService.handleNavigation`)

The `redirectedTabs` set is modelled as a duplicate-free list of tab ids;
the observable effect of one navigation event is an `NavAction`. -/

structure NavEvent where
  tabId : Nat
  frameId : Nat
  url : String
deriving DecidableEq

inductive NavAction where
  /-- `details.frameId !== 0`: not a main-frame navigation. -/
  | ignored : NavAction
  /-- The tab was in `redirectedTabs`: the event is this tab's own
  redirect navigation and is dropped before any matching. -/
  | swallowed : NavAction
  /-- Extension disabled, no matching rule, or a no-op rewrite. -/
  | passedThrough : NavAction
  /-- `chrome.tabs.update(tabId, url)` was issued. -/
  | redirected : String → NavAction
deriving DecidableEq

/-- The matching part of `handleNavigation`, reached only when the event
was not swallowed: look up a rule, build the redirect, and navigate when
the result is truthy and differs from the original URL. -/
def processNavigation (settings : ExtensionSettings) (tabs : List Nat)
    (e : NavEvent) : List Nat × NavAction :=
  if !settings.isEnabled then (tabs, .passedThrough)
  else
    match findMatchingRule e.url settings.rules with
    | none => (tabs, .passedThrough)
    | some rule =>
      let redirectUrl := buildRedirectUrl e.url rule
      if redirectUrl ≠ "" ∧ redirectUrl ≠ e.url then
        (e.tabId :: tabs, .redirected redirectUrl)
      else (tabs, .passedThrough)

/-- `BackgroundService.handleNavigation`: ignore sub-frames; swallow (and
clear) a pending self-navigation; otherwise match and redirect. -/
def handleNavigation (settings : ExtensionSettings) (tabs : List Nat)
    (e : NavEvent) : List Nat × NavAction :=
  if e.frameId ≠ 0 then (tabs, .ignored)
  else if e.tabId ∈ tabs then (tabs.erase e.tabId, .swallowed)
  else processNavigation settings tabs e

/-! ## Storage operations (`StorageManager`, `src/popup/Popup.tsx`) -/

/-- `StorageManager.MAX_LOGS`. -/
def MAX_LOGS : Nat := 1000

/-- `StorageManager.addLog` on the stored log list (newest first):
`logs.unshift(log)` then `logs.splice(MAX_LOGS)` when over the cap. -/
def addLog (log : RedirectLog) (logs : List RedirectLog) : List RedirectLog :=
  let logs2 := log :: logs
  if logs2.length > MAX_LOGS then logs2.take MAX_LOGS else logs2

/-- `StorageManager.updateRule` on the stored rule list: `Except.error`
models the thrown `Error("Rule not found")`.  `updates` is the
`Partial<RedirectRule>` merge; `updatedAt` is then set to `now`. -/
def updateRule (now : Nat) (ruleId : String) (updates : RedirectRule → RedirectRule)
    (rules : List RedirectRule) : Except String (List RedirectRule) :=
  match rules.findIdx? (fun rule => rule.id = ruleId) with
  | none => .error "Rule not found"
  | some i =>
    .ok (rules.set i { updates (rules.getD i default) with updatedAt := now })

/-- `StorageManager.deleteRule` on the stored rule list: keep every rule
whose id differs. -/
def deleteRule (ruleId : String) (rules : List RedirectRule) : List RedirectRule :=
  rules.filter (fun rule => rule.id ≠ ruleId)

/-- A `MessageResponse` as sent by `handleMessage` (the `data` payload is
irrelevant to the claims). -/
structure MessageResponse where
  success : Bool
  error : Option String
deriving DecidableEq

/-- The `UPDATE_RULE` arm of `handleMessage`: a thrown storage error is
caught and surfaced as `{success:false, error}`; on success the stored
rules are the updated list. -/
def handleUpdateRuleMsg (now : Nat) (ruleId : String)
    (updates : RedirectRule → RedirectRule) (rules : List RedirectRule) :
    MessageResponse × List RedirectRule :=
  match updateRule now ruleId updates rules with
  | .ok rules2 => (⟨true, none⟩, rules2)
  | .error e => (⟨false, some e⟩, rules)

/-- The `DELETE_RULE` arm of `handleMessage`: `deleteRule` never throws,
so the response is always `{success:true}`. -/
def handleDeleteRuleMsg (ruleId : String) (rules : List RedirectRule) :
    MessageResponse × List RedirectRule :=
  (⟨true, none⟩, deleteRule ruleId rules)

/-! ## `BackgroundService.testRule` -/

structure TestResult where
  /-- The source field `matches` (a Lean keyword). -/
  matched : Bool
  redirectUrl : Option String
deriving DecidableEq

/-- `TEST_RULE`: run the matcher on the single-rule list; build the
redirect only on a match. -/
def testRule (url : String) (rule : RedirectRule) : TestResult :=
  let matched := (findMatchingRule url [rule]).isSome
  ⟨matched, if matched then some (buildRedirectUrl url rule) else none⟩

/-! ## Concrete fixtures used by witnesses and counterexamples -/

/-- Wildcard rule with pattern `*://google.com/*`. -/
def ruleGoogle : RedirectRule := ⟨"g", "google", "*://google.com/*", "proxy.net", true, false, 0, 0⟩

/-- Wildcard rule with pattern `a?c`. -/
def ruleAC : RedirectRule := ⟨"q", "qmark", "a?c", "proxy.net", true, false, 0, 0⟩

/-- Full-URL prefix rule (`https://freedium.cfd/`). -/
def ruleFreedium : RedirectRule := ⟨"f", "freedium", "medium", "https://freedium.cfd/", true, false, 0, 0⟩

/-- Bare-domain prefix rule (`proxy.net`). -/
def ruleProxy : RedirectRule := ⟨"p", "proxy", "example", "proxy.net", true, false, 0, 0⟩

/-- Path-bearing prefix rule (`cdn.io/`). -/
def ruleCdn : RedirectRule := ⟨"c", "cdn", "a.com", "cdn.io/", true, false, 0, 0⟩

/-- Disabled match-everything rule. -/
def ruleDisabled : RedirectRule := ⟨"d", "disabled", "*", "proxy.net", false, false, 0, 0⟩

/-- Enabled match-everything rule with a path-bearing prefix. -/
def ruleAll : RedirectRule := ⟨"a", "all", "*", "cdn.io/", true, false, 0, 0⟩

/-- Settings holding just `ruleAll`, extension enabled. -/
def settingsAll : ExtensionSettings := ⟨true, [ruleAll], false, false⟩

/-- A log entry fixture. -/
def logEntry : RedirectLog := ⟨"l", "o", "r", "a", "all", 0, 7⟩

/-! # Theorems

## Correctness of the derivative matcher

`searchB` (the model of `RegExp.prototype.test`) is characterized against
the language semantics `RMatch`: it answers true exactly when some
contiguous substring of the input is in the pattern's language. -/

theorem rmatch_fail_inv {u : List Char} (h : RMatch .fail u) : False := by
  cases h

theorem rmatch_eps_inv {u : List Char} (h : RMatch .eps u) : u = [] := by
  cases h; rfl

theorem rmatch_chr_inv {a : Char} {u : List Char} (h : RMatch (.chr a) u) :
    ∃ c, u = [c] ∧ a.toLower = c.toLower := by
  cases h with
  | chr _ c hc => exact ⟨c, rfl, hc⟩

theorem rmatch_any_inv {u : List Char} (h : RMatch .any u) : ∃ c, u = [c] := by
  cases h with
  | any c => exact ⟨c, rfl⟩

theorem rmatch_cls_inv {neg : Bool} {items : List (Char × Char)} {u : List Char}
    (h : RMatch (.cls neg items) u) :
    ∃ c, u = [c] ∧ clsMatchB neg items c = true := by
  cases h with
  | cls _ _ c hc => exact ⟨c, rfl, hc⟩

theorem rmatch_cat_inv {a b : Regex} {u : List Char} (h : RMatch (.cat a b) u) :
    ∃ s t, u = s ++ t ∧ RMatch a s ∧ RMatch b t := by
  cases h with
  | cat h1 h2 => exact ⟨_, _, rfl, h1, h2⟩

theorem rmatch_alt_inv {a b : Regex} {u : List Char} (h : RMatch (.alt a b) u) :
    RMatch a u ∨ RMatch b u := by
  cases h with
  | altL _ h1 => exact Or.inl h1
  | altR _ h1 => exact Or.inr h1

theorem rmatch_star_inv {a : Regex} {u : List Char} (h : RMatch (.star a) u) :
    u = [] ∨ ∃ c s t, u = c :: s ++ t ∧ RMatch a (c :: s) ∧ RMatch (.star a) t := by
  cases h with
  | starNil _ => exact Or.inl rfl
  | starCons h1 h2 => exact Or.inr ⟨_, _, _, rfl, h1, h2⟩

theorem rmatch_nil_nullable {r : Regex} {s : List Char} (h : RMatch r s) :
    s = [] → nullable r = true := by
  induction h with
  | eps => intro _; rfl
  | chr a c _ => intro hc; exact absurd hc (List.cons_ne_nil _ _)
  | any c => intro hc; exact absurd hc (List.cons_ne_nil _ _)
  | cls neg items c _ => intro hc; exact absurd hc (List.cons_ne_nil _ _)
  | cat h1 h2 ih1 ih2 =>
    intro hc
    rcases List.append_eq_nil.mp hc with ⟨h3, h4⟩
    simp [nullable, ih1 h3, ih2 h4]
  | altL b h ih => intro hc; simp [nullable, ih hc]
  | altR a h ih => intro hc; simp [nullable, ih hc]
  | starNil a => intro _; rfl
  | starCons h1 h2 ih1 ih2 => intro hc; exact absurd hc (List.cons_ne_nil _ _)

theorem nullable_iff (r : Regex) : nullable r = true ↔ RMatch r [] := by
  constructor
  · intro h
    induction r with
    | fail => simp [nullable] at h
    | eps => exact RMatch.eps
    | chr c => simp [nullable] at h
    | any => simp [nullable] at h
    | cls neg items => simp [nullable] at h
    | cat a b iha ihb =>
      simp only [nullable, Bool.and_eq_true] at h
      simpa using RMatch.cat (iha h.1) (ihb h.2)
    | alt a b iha ihb =>
      simp only [nullable, Bool.or_eq_true] at h
      rcases h with h | h
      · exact RMatch.altL _ (iha h)
      · exact RMatch.altR _ (ihb h)
    | star a _ => exact RMatch.starNil a
  · intro h
    exact rmatch_nil_nullable h rfl

theorem derivR_sound {r : Regex} {c : Char} {s : List Char}
    (h : RMatch (derivR r c) s) : RMatch r (c :: s) := by
  induction r generalizing s with
  | fail => exact absurd h rmatch_fail_inv
  | eps => exact absurd h rmatch_fail_inv
  | chr a =>
    simp only [derivR] at h
    by_cases hc : a.toLower = c.toLower
    · rw [if_pos hc] at h
      rw [rmatch_eps_inv h]
      exact RMatch.chr a c hc
    · rw [if_neg hc] at h
      exact absurd h rmatch_fail_inv
  | any =>
    simp only [derivR] at h
    rw [rmatch_eps_inv h]
    exact RMatch.any c
  | cls neg items =>
    simp only [derivR] at h
    by_cases hc : clsMatchB neg items c = true
    · rw [if_pos hc] at h
      rw [rmatch_eps_inv h]
      exact RMatch.cls neg items c hc
    · rw [if_neg hc] at h
      exact absurd h rmatch_fail_inv
  | cat a b iha ihb =>
    simp only [derivR] at h
    by_cases hn : nullable a = true
    · rw [if_pos hn] at h
      rcases rmatch_alt_inv h with h1 | h1
      · rcases rmatch_cat_inv h1 with ⟨s1, s2, heq, h2, h3⟩
        subst heq
        exact RMatch.cat (iha h2) h3
      · have h2 := RMatch.cat ((nullable_iff a).mp hn) (ihb h1)
        simpa using h2
    · rw [if_neg hn] at h
      rcases rmatch_cat_inv h with ⟨s1, s2, heq, h2, h3⟩
      subst heq
      exact RMatch.cat (iha h2) h3
  | alt a b iha ihb =>
    simp only [derivR] at h
    rcases rmatch_alt_inv h with h1 | h1
    · exact RMatch.altL _ (iha h1)
    · exact RMatch.altR _ (ihb h1)
  | star a iha =>
    simp only [derivR] at h
    rcases rmatch_cat_inv h with ⟨s1, s2, heq, h2, h3⟩
    subst heq
    exact RMatch.starCons (iha h2) h3

theorem derivR_complete {r : Regex} {c : Char} {s : List Char}
    (h : RMatch r (c :: s)) : RMatch (derivR r c) s := by
  induction r generalizing s with
  | fail => exact absurd h rmatch_fail_inv
  | eps => exact absurd (rmatch_eps_inv h) (List.cons_ne_nil _ _)
  | chr a =>
    rcases rmatch_chr_inv h with ⟨c1, heq, hc⟩
    injection heq with h1 h2
    subst h1
    subst h2
    simp only [derivR]
    rw [if_pos hc]
    exact RMatch.eps
  | any =>
    rcases rmatch_any_inv h with ⟨c1, heq⟩
    injection heq with h1 h2
    subst h2
    simp only [derivR]
    exact RMatch.eps
  | cls neg items =>
    rcases rmatch_cls_inv h with ⟨c1, heq, hc⟩
    injection heq with h1 h2
    subst h1
    subst h2
    simp only [derivR]
    rw [if_pos hc]
    exact RMatch.eps
  | cat a b iha ihb =>
    rcases rmatch_cat_inv h with ⟨s1, s2, heq, h1, h2⟩
    cases s1 with
    | nil =>
      simp only [List.nil_append] at heq
      subst heq
      have hn : nullable a = true := (nullable_iff a).mpr h1
      simp only [derivR, if_pos hn]
      exact RMatch.altR _ (ihb h2)
    | cons c1 s1t =>
      rw [List.cons_append] at heq
      injection heq with hc hs
      subst hc
      subst hs
      have ha := iha h1
      simp only [derivR]
      by_cases hn : nullable a = true
      · rw [if_pos hn]
        exact RMatch.altL _ (RMatch.cat ha h2)
      · rw [if_neg hn]
        exact RMatch.cat ha h2
  | alt a b iha ihb =>
    simp only [derivR]
    rcases rmatch_alt_inv h with h1 | h1
    · exact RMatch.altL _ (iha h1)
    · exact RMatch.altR _ (ihb h1)
  | star a iha =>
    rcases rmatch_star_inv h with heq | ⟨c1, s1, t, heq, h1, h2⟩
    · exact absurd heq (List.cons_ne_nil _ _)
    · rw [List.cons_append] at heq
      injection heq with hc hs
      subst hc
      subst hs
      simp only [derivR]
      exact RMatch.cat (iha h1) h2

theorem matchPre_iff {r : Regex} {s : List Char} :
    matchPre r s = true ↔ ∃ p q, s = p ++ q ∧ RMatch r p := by
  induction s generalizing r with
  | nil =>
    simp only [matchPre]
    constructor
    · intro h
      exact ⟨[], [], rfl, (nullable_iff r).mp h⟩
    · rintro ⟨p, q, heq, hm⟩
      rcases List.append_eq_nil.mp heq.symm with ⟨hp, _⟩
      subst hp
      exact (nullable_iff r).mpr hm
  | cons c cs ih =>
    simp only [matchPre, Bool.or_eq_true]
    constructor
    · rintro (h | h)
      · exact ⟨[], c :: cs, rfl, (nullable_iff r).mp h⟩
      · rcases ih.mp h with ⟨p, q, heq, hm⟩
        exact ⟨c :: p, q, by rw [heq, List.cons_append], derivR_sound hm⟩
    · rintro ⟨p, q, heq, hm⟩
      cases p with
      | nil =>
        exact Or.inl ((nullable_iff r).mpr hm)
      | cons p1 ps =>
        rw [List.cons_append] at heq
        injection heq with h1 h2
        subst h1
        exact Or.inr (ih.mpr ⟨ps, q, h2, derivR_complete hm⟩)

theorem searchB_iff {r : Regex} {s : List Char} :
    searchB r s = true ↔ ∃ p m q, s = p ++ m ++ q ∧ RMatch r m := by
  induction s with
  | nil =>
    simp only [searchB]
    constructor
    · intro h
      exact ⟨[], [], [], rfl, (nullable_iff r).mp h⟩
    · rintro ⟨p, m, q, heq, hm⟩
      have h2 : p = [] ∧ m = [] ∧ q = [] := by
        simpa [List.append_eq_nil] using heq.symm
      rcases h2 with ⟨_, hm2, _⟩
      subst hm2
      exact (nullable_iff r).mpr hm
  | cons c cs ih =>
    simp only [searchB, Bool.or_eq_true]
    constructor
    · rintro (h | h)
      · rcases matchPre_iff.mp h with ⟨p, q, heq, hm⟩
        exact ⟨[], p, q, by simpa using heq, hm⟩
      · rcases ih.mp h with ⟨p, m, q, heq, hm⟩
        exact ⟨c :: p, m, q, by rw [heq]; rfl, hm⟩
    · rintro ⟨p, m, q, heq, hm⟩
      cases p with
      | nil =>
        exact Or.inl (matchPre_iff.mpr ⟨m, q, by simpa using heq, hm⟩)
      | cons p1 ps =>
        rw [List.cons_append] at heq
        injection heq with h1 h2
        exact Or.inr (ih.mpr ⟨ps, m, q, h2, hm⟩)

/-- `regex.test(url)` is true exactly when some contiguous substring of
the url is in the pattern's language: search-anywhere, not full-string. -/
theorem regex_test_iff (r : Regex) (s : String) :
    r.test s = true ↔ ∃ p m q, s.data = p ++ m ++ q ∧ RMatch r m :=
  searchB_iff

/-! ## C1: the matcher returns the first enabled matching rule -/

theorem findMatchingRule_eq_find (url : String) (rules : List RedirectRule) :
    findMatchingRule url rules =
      rules.find? (fun r => r.isEnabled && ruleMatches url r) := by
  induction rules with
  | nil => rfl
  | cons r rs ih =>
    by_cases he : r.isEnabled = true
    · by_cases hm : ruleMatches url r = true
      · rw [List.find?_cons_of_pos _ (by simp [he, hm])]
        simp [findMatchingRule, he, hm]
      · rw [List.find?_cons_of_neg _ (by simp [he, hm])]
        simp [findMatchingRule, he, hm, ih]
    · rw [List.find?_cons_of_neg _ (by simp [he])]
      simp [findMatchingRule, he, ih]

/-- C1: for every url and ordered rule list, `findMatchingRule` returns
the earliest-indexed rule that is enabled and whose compiled pattern
matches (the `find?` of that predicate); a disabled rule is never
selected; a rule whose pattern fails to compile is treated as
non-matching and the scan continues with the next rule; `none` is
returned exactly when no enabled rule matches, in particular on the
empty list. -/
theorem c1_findMatch_first_enabled (url : String) (rules : List RedirectRule) :
    findMatchingRule url rules =
        rules.find? (fun r => r.isEnabled && ruleMatches url r)
    ∧ (∀ r : RedirectRule, r.isEnabled = false → findMatchingRule url rules ≠ some r)
    ∧ (∀ (r : RedirectRule) (rs : List RedirectRule),
        compileRegex (if r.isRegex then r.pattern else wildcardTranslate r.pattern) = none →
        findMatchingRule url (r :: rs) = findMatchingRule url rs)
    ∧ (findMatchingRule url rules = none ↔
        ∀ r ∈ rules, ¬(r.isEnabled = true ∧ ruleMatches url r = true))
    ∧ findMatchingRule url [] = none := by
  refine ⟨findMatchingRule_eq_find url rules, ?_, ?_, ?_, rfl⟩
  · intro r hdis hsome
    rw [findMatchingRule_eq_find] at hsome
    have h2 := List.find?_some hsome
    simp [hdis] at h2
  · intro r rs hc
    have hm : ruleMatches url r = false := by
      cases hr : r.isRegex with
      | true => simp [hr] at hc; simp [ruleMatches, hr, hc]
      | false => simp [hr] at hc; simp [ruleMatches, hr, hc]
    simp [findMatchingRule, hm]
  · rw [findMatchingRule_eq_find, List.find?_eq_none]
    simp [Bool.and_eq_true]

/-- Witness for C1: the scan skips the disabled first rule and returns
the enabled second rule that matches. -/
theorem c1_findMatch_first_enabled_witness :
    findMatchingRule "https://google.com/x" [ruleDisabled, ruleGoogle] = some ruleGoogle
    ∧ ruleDisabled.isEnabled = false := by
  constructor
  · rw [(c1_findMatch_first_enabled "https://google.com/x" [ruleDisabled, ruleGoogle]).1]
    decide
  · decide

/-! ## C2: wildcard translation and search-anywhere matching -/

theorem wildcardTranslate_charMap (l : List Char) :
    replaceAllChar '?' ['.'] (replaceAllChar '*' ['.', '*']
      (replaceAllChar '.' ['\\', '.'] l)) = (l.map wildcardCharMap).flatten := by
  induction l with
  | nil => rfl
  | cons c cs ih =>
    by_cases h1 : c = '.'
    · subst h1; simp [replaceAllChar, wildcardCharMap, ih]
    · by_cases h2 : c = '*'
      · subst h2; simp [replaceAllChar, wildcardCharMap, ih]
      · by_cases h3 : c = '?'
        · subst h3; simp [replaceAllChar, wildcardCharMap, ih]
        · simp [replaceAllChar, wildcardCharMap, h1, h2, h3, ih]

/-- C2: a non-regex rule's pattern is translated per character
(`.` escaped, `*` to match-any-sequence, `?` to match-one-character),
compiled case-insensitively, and tested with search-anywhere semantics
(a match of any contiguous substring); concretely, `*://google.com/*`
matches `https://google.com/search` and `http://google.com/x`, and `a?c`
matches `abc` but neither `ac` nor `abbc`. -/
theorem c2_wildcard_translation (rule : RedirectRule) (url : String)
    (h1 : rule.isRegex = false) :
    (ruleMatches url rule =
      match compileRegex (wildcardTranslate rule.pattern) with
      | some re => re.test url
      | none => false)
    ∧ (∀ re, compileRegex (wildcardTranslate rule.pattern) = some re →
        (ruleMatches url rule = true ↔
          ∃ p m q, url.data = p ++ m ++ q ∧ RMatch re m))
    ∧ wildcardTranslate rule.pattern = ⟨(rule.pattern.data.map wildcardCharMap).flatten⟩
    ∧ wildcardTranslate "*://google.com/*" = ".*://google\\.com/.*"
    ∧ wildcardTranslate "a?c" = "a.c"
    ∧ ruleMatches "https://google.com/search" ruleGoogle = true
    ∧ ruleMatches "http://google.com/x" ruleGoogle = true
    ∧ ruleMatches "abc" ruleAC = true
    ∧ ruleMatches "ac" ruleAC = false
    ∧ ruleMatches "abbc" ruleAC = false := by
  refine ⟨by simp [ruleMatches, h1], ?_,
    congrArg String.mk (wildcardTranslate_charMap rule.pattern.data),
    by decide, by decide, by decide, by decide, by decide, by decide, by decide⟩
  intro re h
  have e : ruleMatches url rule = re.test url := by simp [ruleMatches, h1, h]
  rw [e]
  exact regex_test_iff re url

/-- Witness for C2: the `a?c` rule (a non-regex rule) matches `abc`. -/
theorem c2_wildcard_translation_witness :
    ruleAC.isRegex = false ∧ ruleMatches "abc" ruleAC = true := by
  refine ⟨by decide, ?_⟩
  exact (c2_wildcard_translation ruleAC "abc" (by decide)).2.2.2.2.2.2.2.1

/-! ## C3: full-URL prefix mode -/

theorem setParam_lookup (ps : List (String × String)) (k v : String) :
    (setParam ps k v).lookup k = some v := by
  induction ps with
  | nil => simp [setParam, List.lookup]
  | cons kv rest ih =>
    by_cases h : kv.1 = k
    · simp [setParam, h, List.lookup]
    · simp only [setParam, if_neg h]
      rw [List.lookup]
      have hb : (k == kv.1) = false := by
        simp only [beq_eq_false_iff_ne, ne_eq]
        exact fun e => h e.symm
      rw [hb]
      exact ih

theorem setParam_filter_ne (ps : List (String × String)) (k v k2 : String)
    (h : k2 ≠ k) :
    (setParam ps k v).filter (fun kv => kv.1 = k2) =
      ps.filter (fun kv => kv.1 = k2) := by
  induction ps with
  | nil =>
    have hk : ¬(k = k2) := fun e => h e.symm
    simp [setParam, hk]
  | cons kv rest ih =>
    by_cases hh : kv.1 = k
    · have hkv2 : ¬(kv.1 = k2) := by rw [hh]; exact fun e => h e.symm
      simp only [setParam, if_pos hh]
      rw [List.filter_cons_of_neg (by simpa using fun e => h e.symm)]
      rw [List.filter_cons_of_neg (by simpa using hkv2)]
      rw [List.filter_filter]
      apply List.filter_congr
      intro a _
      by_cases ha : a.1 = k2
      · have hak : a.1 ≠ k := by rw [ha]; exact h
        simp [ha, hak, h]
      · simp [ha]
    · simp only [setParam, if_neg hh]
      by_cases hp : kv.1 = k2
      · rw [List.filter_cons_of_pos (by simpa using hp),
          List.filter_cons_of_pos (by simpa using hp), ih]
      · rw [List.filter_cons_of_neg (by simpa using hp),
          List.filter_cons_of_neg (by simpa using hp), ih]

/-- C3: for a rule whose prefix starts with `http://` or `https://`,
`buildRedirectUrl` parses the prefix as a URL, sets or overwrites its
query parameter named `url` to the full original URL string, leaves all
other query parameters untouched, and returns the serialized absolute
URL; concretely, prefix `https://freedium.cfd/` on original
`https://medium.com/p` yields
`https://freedium.cfd/?url=https%3A%2F%2Fmedium.com%2Fp`. -/
theorem c3_fullUrl_mode (o : String) (rule : RedirectRule) (u pu : URLRec)
    (h1 : parseURL o = some u)
    (h2 : (strStartsWith rule.pfx "http://" || strStartsWith rule.pfx "https://") = true)
    (h3 : parseURL rule.pfx = some pu) :
    buildRedirectUrl o rule = serializeURL (setUrlParam pu o)
    ∧ (setParam (queryPairs pu.search) "url" o).lookup "url" = some o
    ∧ (∀ k, k ≠ "url" →
        (setParam (queryPairs pu.search) "url" o).filter (fun kv => kv.1 = k)
          = (queryPairs pu.search).filter (fun kv => kv.1 = k))
    ∧ buildRedirectUrl "https://medium.com/p" ruleFreedium
        = "https://freedium.cfd/?url=https%3A%2F%2Fmedium.com%2Fp" := by
  refine ⟨?_, setParam_lookup _ _ _, fun k hk => setParam_filter_ne _ _ _ _ hk, by decide⟩
  simp [buildRedirectUrl, h1, h2, h3]

/-- Witness for C3 at the spec's example inputs. -/
theorem c3_fullUrl_mode_witness :
    parseURL "https://medium.com/p" = some ⟨"https", true, "medium.com", "/p", "", ""⟩
    ∧ parseURL ruleFreedium.pfx = some ⟨"https", true, "freedium.cfd", "/", "", ""⟩
    ∧ buildRedirectUrl "https://medium.com/p" ruleFreedium
        = "https://freedium.cfd/?url=https%3A%2F%2Fmedium.com%2Fp" := by
  refine ⟨by decide, by decide, ?_⟩
  exact (c3_fullUrl_mode "https://medium.com/p" ruleFreedium
    ⟨"https", true, "medium.com", "/p", "", ""⟩
    ⟨"https", true, "freedium.cfd", "/", "", ""⟩
    (by decide) (by decide) (by decide)).2.2.2

/-! ## C4: bare-domain prefix mode -/

/-- C4: for every parseable original URL and a rule whose prefix neither
starts with `http://`/`https://` nor contains `/`, `buildRedirectUrl`
replaces only the host: it returns
`protocol ++ "//" ++ prefix ++ pathname ++ search ++ hash` of the parsed
original, preserving path, query and fragment verbatim; concretely
`https://example.com/page?x=1` with prefix `proxy.net` yields
`https://proxy.net/page?x=1`. -/
theorem c4_bareDomain_mode (o : String) (rule : RedirectRule) (u : URLRec)
    (h1 : parseURL o = some u)
    (h2 : (strStartsWith rule.pfx "http://" || strStartsWith rule.pfx "https://") = false)
    (h3 : strContains rule.pfx '/' = false) :
    buildRedirectUrl o rule =
      urlProtocol u ++ "//" ++ rule.pfx ++ u.pathname ++ u.search ++ u.hash
    ∧ buildRedirectUrl "https://example.com/page?x=1" ruleProxy
        = "https://proxy.net/page?x=1" := by
  refine ⟨?_, by decide⟩
  simp [buildRedirectUrl, h1, h2, h3]

/-- Witness for C4 at the spec's example inputs. -/
theorem c4_bareDomain_mode_witness :
    parseURL "https://example.com/page?x=1"
      = some ⟨"https", true, "example.com", "/page", "?x=1", ""⟩
    ∧ strContains ruleProxy.pfx '/' = false
    ∧ buildRedirectUrl "https://example.com/page?x=1" ruleProxy
        = "https://proxy.net/page?x=1" := by
  refine ⟨by decide, by decide, ?_⟩
  exact (c4_bareDomain_mode "https://example.com/page?x=1" ruleProxy
    ⟨"https", true, "example.com", "/page", "?x=1", ""⟩
    (by decide) (by decide) (by decide)).2

/-! ## C5: path-bearing prefix mode

The claim quantifies over every `originalUrl` string, but the source
parses `originalUrl` (`new URL(originalUrl)`) before reaching the
concatenation branch: an unparseable original URL takes the `catch` path
and is returned unchanged, not concatenated. -/

/-- C5 counterexample: `ruleCdn` has a path-bearing prefix (`cdn.io/`),
yet for the unparseable original URL `x` the builder returns `x`, not
`cdn.io/x` — refuting the claim for every originalUrl string. -/
theorem c5_counterexample :
    (strStartsWith ruleCdn.pfx "http://" || strStartsWith ruleCdn.pfx "https://") = false
    ∧ strContains ruleCdn.pfx '/' = true
    ∧ buildRedirectUrl "x" ruleCdn = "x"
    ∧ buildRedirectUrl "x" ruleCdn ≠ ruleCdn.pfx ++ "x" := by decide

/-- C5 (amended): for every parseable original URL and a rule whose
prefix does not start with `http://`/`https://` but contains `/`,
`buildRedirectUrl` returns the literal concatenation
`prefix ++ originalUrl` with no separator normalization; concretely
`https://a.com/b` with prefix `cdn.io/` yields `cdn.io/https://a.com/b`. -/
theorem c5_pathBearing_concat (o : String) (rule : RedirectRule) (u : URLRec)
    (h1 : parseURL o = some u)
    (h2 : (strStartsWith rule.pfx "http://" || strStartsWith rule.pfx "https://") = false)
    (h3 : strContains rule.pfx '/' = true) :
    buildRedirectUrl o rule = rule.pfx ++ o
    ∧ buildRedirectUrl "https://a.com/b" ruleCdn = "cdn.io/https://a.com/b" := by
  refine ⟨?_, by decide⟩
  simp [buildRedirectUrl, h1, h2, h3]

/-- Witness for the amended C5 at the spec's example inputs. -/
theorem c5_pathBearing_concat_witness :
    parseURL "https://a.com/b" = some ⟨"https", true, "a.com", "/b", "", ""⟩
    ∧ strContains ruleCdn.pfx '/' = true
    ∧ buildRedirectUrl "https://a.com/b" ruleCdn = "cdn.io/https://a.com/b" := by
  refine ⟨by decide, by decide, ?_⟩
  exact (c5_pathBearing_concat "https://a.com/b" ruleCdn
    ⟨"https", true, "a.com", "/b", "", ""⟩ (by decide) (by decide) (by decide)).2

/-! ## C6: the builder never throws and fails soft -/

/-- C6: `buildRedirectUrl` is a total function (never throws); whenever
the original URL cannot be parsed, or the full-URL prefix cannot be
parsed, it returns the original URL unchanged, signaling no effective
redirect. -/
theorem c6_failSoft (o : String) (rule : RedirectRule) :
    (parseURL o = none → buildRedirectUrl o rule = o)
    ∧ ((strStartsWith rule.pfx "http://" || strStartsWith rule.pfx "https://") = true →
        parseURL rule.pfx = none → buildRedirectUrl o rule = o) := by
  constructor
  · intro h
    simp [buildRedirectUrl, h]
  · intro h2 h3
    cases hp : parseURL o with
    | none => simp [buildRedirectUrl, hp]
    | some u => simp [buildRedirectUrl, hp, h2, h3]

/-- Witness for C6: the unparseable original `x` is returned unchanged,
and an unparseable full-URL prefix (`http://` with empty host) also
falls back to the original URL. -/
theorem c6_failSoft_witness :
    parseURL "x" = none
    ∧ buildRedirectUrl "x" ruleCdn = "x"
    ∧ parseURL "http://" = none
    ∧ buildRedirectUrl "https://a.com/b" ⟨"b", "bad", "p", "http://", true, false, 0, 0⟩
        = "https://a.com/b" := by
  refine ⟨by decide, (c6_failSoft "x" ruleCdn).1 (by decide), by decide, ?_⟩
  exact (c6_failSoft "https://a.com/b" ⟨"b", "bad", "p", "http://", true, false, 0, 0⟩).2
    (by decide) (by decide)

/-! ## C7: loop-guard state machine -/

/-- C7: immediately after `handleNavigation` issues a redirect for a tab,
that tab is in the pending set; the very next main-frame navigation event
for that tab is swallowed — for every settings value, so no matching or
building is performed — and removes the tab from the set; after that the
tab is no longer pending and navigation is processed by the normal
matching path again. -/
theorem c7_loop_guard (s1 s2 s3 : ExtensionSettings) (tabs : List Nat)
    (t : Nat) (u1 u2 u3 ru : String)
    (ht : t ∉ tabs)
    (hred : handleNavigation s1 tabs ⟨t, 0, u1⟩ = (t :: tabs, .redirected ru)) :
    t ∈ (handleNavigation s1 tabs ⟨t, 0, u1⟩).1
    ∧ handleNavigation s2 (t :: tabs) ⟨t, 0, u2⟩ = (tabs, .swallowed)
    ∧ t ∉ (handleNavigation s2 (t :: tabs) ⟨t, 0, u2⟩).1
    ∧ handleNavigation s3 tabs ⟨t, 0, u3⟩ = processNavigation s3 tabs ⟨t, 0, u3⟩ := by
  have hsw : handleNavigation s2 (t :: tabs) ⟨t, 0, u2⟩ = (tabs, .swallowed) := by
    simp [handleNavigation, List.erase_cons_head]
  refine ⟨?_, hsw, ?_, ?_⟩
  · rw [hred]
    exact List.mem_cons_self t tabs
  · rw [hsw]
    exact ht
  · simp [handleNavigation, ht]

/-- Witness for C7: a concrete redirect on tab 7 followed by the
swallowed self-navigation, under different settings. -/
theorem c7_loop_guard_witness :
    handleNavigation settingsAll [] ⟨7, 0, "https://a.com/b"⟩
      = ([7], .redirected "cdn.io/https://a.com/b")
    ∧ handleNavigation ⟨false, [], true, true⟩ [7] ⟨7, 0, "cdn.io/https://a.com/b"⟩
      = ([], .swallowed) := by
  refine ⟨by decide, ?_⟩
  exact (c7_loop_guard settingsAll ⟨false, [], true, true⟩ settingsAll []
    7 "https://a.com/b" "cdn.io/https://a.com/b" "u" "cdn.io/https://a.com/b"
    (by decide) (by decide)).2.1

/-! ## C8: bounded log store -/

/-- C8: after any `addLog`, the log store holds at most 1000 entries; the
result is exactly the newest-first take of `log :: logs`, so the new
entry is at the head, and what is evicted is precisely the tail beyond
1000 — the oldest entries. -/
theorem c8_log_cap (log : RedirectLog) (logs : List RedirectLog) :
    (addLog log logs).length ≤ MAX_LOGS
    ∧ addLog log logs = (log :: logs).take MAX_LOGS
    ∧ (addLog log logs).head? = some log
    ∧ addLog log logs ++ (log :: logs).drop MAX_LOGS = log :: logs := by
  have he : addLog log logs = (log :: logs).take MAX_LOGS := by
    simp only [addLog]
    by_cases h : (log :: logs).length > MAX_LOGS
    · rw [if_pos h]
    · rw [if_neg h]
      rw [List.take_of_length_le (Nat.le_of_not_lt h)]
  refine ⟨?_, he, ?_, ?_⟩
  · rw [he, List.length_take]
    exact Nat.min_le_left _ _
  · rw [he]
    show (List.take (999 + 1) (log :: logs)).head? = some log
    rw [List.take_succ_cons]
    rfl
  · rw [he]
    exact List.take_append_drop MAX_LOGS (log :: logs)

/-! ## C9: rule-not-found on update and delete

`StorageManager.updateRule` throws `Error("Rule not found")` for a
missing id, which `handleMessage` surfaces as `{success:false}`.
`StorageManager.deleteRule`, however, is a plain filter: with a missing
id it removes nothing and `handleMessage` answers `{success:true}` — the
claim fails for DELETE_RULE. -/

/-- C9 counterexample: deleting the absent id `zz` from the one-rule
store responds with success (never an explicit failure), refuting the
claim for DELETE_RULE; the stored rules are unchanged. -/
theorem c9_counterexample :
    (∀ r ∈ [ruleAll], r.id ≠ "zz")
    ∧ handleDeleteRuleMsg "zz" [ruleAll] = (⟨true, none⟩, [ruleAll])
    ∧ ¬(handleDeleteRuleMsg "zz" [ruleAll]).1.success = false := by decide

theorem findIdx?_none_of_all {p : RedirectRule → Bool} {l : List RedirectRule}
    (h : ∀ r ∈ l, p r = false) : l.findIdx? p = none :=
  List.findIdx?_eq_none_iff.mpr h

/-- C9 (amended): for an UPDATE_RULE whose rule id is not present, the
response is an explicit failure (`success:false`, error "Rule not
found") and the stored rules are unchanged; for a DELETE_RULE whose rule
id is not present, the response is `success:true` (the miss is silently
ignored) and the stored rules are likewise unchanged. -/
theorem c9_not_found_responses (now : Nat) (ruleId : String)
    (updates : RedirectRule → RedirectRule) (rules : List RedirectRule)
    (h : ∀ r ∈ rules, r.id ≠ ruleId) :
    handleUpdateRuleMsg now ruleId updates rules
      = (⟨false, some "Rule not found"⟩, rules)
    ∧ handleDeleteRuleMsg ruleId rules = (⟨true, none⟩, rules) := by
  have hf : rules.findIdx? (fun rule => rule.id = ruleId) = none :=
    findIdx?_none_of_all fun r hr => by simpa using h r hr
  constructor
  · simp [handleUpdateRuleMsg, updateRule, hf]
  · simp only [handleDeleteRuleMsg, deleteRule]
    congr 1
    apply List.filter_eq_self.mpr
    intro a ha
    simpa using h a ha

/-- Witness for the amended C9: updating and deleting the absent id `zz`
on the one-rule store. -/
theorem c9_not_found_responses_witness :
    (∀ r ∈ [ruleAll], r.id ≠ "zz")
    ∧ handleUpdateRuleMsg 5 "zz" id [ruleAll]
        = (⟨false, some "Rule not found"⟩, [ruleAll])
    ∧ handleDeleteRuleMsg "zz" [ruleAll] = (⟨true, none⟩, [ruleAll]) := by
  refine ⟨by decide, ?_, ?_⟩
  · exact (c9_not_found_responses 5 "zz" id [ruleAll] (by decide)).1
  · exact (c9_not_found_responses 5 "zz" id [ruleAll] (by decide)).2

/-! ## C10: TEST_RULE on a disabled rule -/

/-- C10: for every url and every disabled rule, `testRule` reports no
match and no redirect URL, because it runs the matcher on the
single-rule list and the matcher skips disabled rules. -/
theorem c10_testRule_disabled (url : String) (rule : RedirectRule)
    (h : rule.isEnabled = false) :
    testRule url rule = ⟨false, none⟩ := by
  simp [testRule, findMatchingRule, h]

/-- Witness for C10: the disabled match-everything rule tests negative. -/
theorem c10_testRule_disabled_witness :
    ruleDisabled.isEnabled = false
    ∧ testRule "https://a.com/b" ruleDisabled = ⟨false, none⟩ :=
  ⟨by decide, c10_testRule_disabled "https://a.com/b" ruleDisabled (by decide)⟩
